import Mathlib

/-!
Verification of the log-processing core of gh-actions-mcp
(corpus parsing, line filtering with context, section extraction and
listing, and line windowing), re-expressed as a shallow embedding in
Lean 4.  Every definition mirrors a concrete Go function of the
repository; the theorems settle the spec's claims about them.
-/

namespace GHActions

/-! ## String utilities

Go strings are modelled as Lean `String`, and the handful of
`strings`-package operations the code uses are re-implemented here on
the character list so the proofs can compute with them. -/

/-- Helper for `splitLines`: accumulates the current line (reversed). -/
def splitNLAux : List Char → List Char → List String
  | [], acc => [String.mk acc.reverse]
  | c :: cs, acc =>
    if c = '\n' then String.mk acc.reverse :: splitNLAux cs []
    else splitNLAux cs (c :: acc)

/-- `strings.Split(s, "\n")`.  As in Go, the empty string splits into
one empty line. -/
def splitLines (s : String) : List String :=
  splitNLAux s.data []

/-- `strings.Join(lines, "\n")`. -/
def joinLines : List String → String
  | [] => ""
  | [s] => s
  | s :: rest => s ++ "\n" ++ joinLines rest

/-- Suffix of `hay` immediately after the first occurrence of
`needle`; `none` when `needle` does not occur.  This models
`strings.Index` (the suffix view) and `strings.Contains`
(occurrence test). -/
def afterFirst (needle : List Char) : List Char → Option (List Char)
  | [] => if needle.isEmpty then some [] else none
  | c :: cs =>
    if needle.isPrefixOf (c :: cs) then some ((c :: cs).drop needle.length)
    else afterFirst needle cs

/-- `strings.Contains(hay, needle)`. -/
def containsSub (needle hay : String) : Bool :=
  (afterFirst needle.data hay.data).isSome

/-! ## The line-window stage

`GetWorkflowLogsWithPattern` and `GetWorkflowJobLogs` share a final
line-limiting block (offset, then tail-over-head, then re-join with a
conditional trailing newline); `applyOffset`, `applyHeadTail`,
`windowLines` and `windowRender` transcribe it. -/

/-- Offset step: `if offset > 0 && offset < len(lines) { lines = lines[offset:] }`. -/
def applyOffset (offset : Nat) (lines : List String) : List String :=
  if 0 < offset ∧ offset < lines.length then lines.drop offset else lines

/-- Head/tail step: tail takes precedence over head; values of zero
mean "unset". -/
def applyHeadTail (head tail : Nat) (lines : List String) : List String :=
  if 0 < tail then
    if tail < lines.length then lines.drop (lines.length - tail) else lines
  else if 0 < head then
    if head < lines.length then lines.take head else lines
  else lines

/-- The full windowing step applied to an already-split line sequence. -/
def windowLines (offset head tail : Nat) (lines : List String) : List String :=
  applyHeadTail head tail (applyOffset offset lines)

/-- The windowing stage on rendered text: split on newlines, window,
re-join, and append a trailing newline only when the joined text is
nonempty (mirrors `logStr = strings.Join(lines, "\n"); if logStr != ""
{ logStr = logStr + "\n" }`). -/
def windowRender (offset head tail : Nat) (logStr : String) : String :=
  let j := joinLines (windowLines offset head tail (splitLines logStr))
  if j = "" then j else j ++ "\n"

/-- Whether a string ends with a newline character. -/
def endsWithNL (s : String) : Bool :=
  match s.data.getLast? with
  | some c => c == '\n'
  | none => false

/-! ### Windowing lemmas -/

theorem applyOffset_zero (lines : List String) : applyOffset 0 lines = lines := by
  simp [applyOffset]

theorem applyHeadTail_idem (head tail : Nat) (l : List String) :
    applyHeadTail head tail (applyHeadTail head tail l) = applyHeadTail head tail l := by
  unfold applyHeadTail
  split_ifs with h1 h2 h3 h4 h5 h6 h7 h8 <;> simp_all [List.length_drop, List.length_take] <;> omega

/-- C6 (amended): with `offset = 0`, the window operation is idempotent
for every head/tail combination. -/
theorem c6_window_idempotent_offset_zero (head tail : Nat) (lines : List String) :
    windowLines 0 head tail (windowLines 0 head tail lines) = windowLines 0 head tail lines := by
  unfold windowLines
  rw [applyOffset_zero, applyOffset_zero]
  exact applyHeadTail_idem head tail (applyOffset 0 lines)

/-- C6 counterexample: with a positive offset the claim as stated
fails: the first application of the spec (offset 1, tail 2) reduces
["a","b","c","d"] to ["c","d"] (within the tail bound), yet a second
application with the same spec drops a further line. -/
theorem c6_counterexample :
    windowLines 1 0 2 (windowLines 1 0 2 ["a", "b", "c", "d"]) ≠
      windowLines 1 0 2 ["a", "b", "c", "d"] := by
  decide

/-- C3 counterexample: an offset greater than or equal to the line
count leaves the sequence unchanged instead of yielding the empty
sequence the claim requires. -/
theorem c3_counterexample :
    windowLines 2 0 0 ["a", "b"] = ["a", "b"] ∧ (["a", "b"] : List String) ≠ [] := by
  constructor
  · decide
  · decide

/-- C3 (amended): for a positive offset, the windowing step drops the
first `offset` lines before head/tail are applied when `offset` is
smaller than the line count; when `offset` is greater than or equal to
the line count the offset step is skipped entirely and the sequence is
left unchanged (never an error, never emptied). -/
theorem c3_offset_amended (lines : List String) (offset head tail : Nat)
    (hoff : 0 < offset) :
    (offset < lines.length →
      windowLines offset head tail lines = windowLines 0 head tail (lines.drop offset))
    ∧ (lines.length ≤ offset →
      windowLines offset head tail lines = windowLines 0 head tail lines) := by
  constructor
  · intro h
    unfold windowLines applyOffset
    simp [hoff, h]
  · intro h
    unfold windowLines applyOffset
    have : ¬ (0 < offset ∧ offset < lines.length) := by omega
    simp [this]

theorem c3_offset_amended_witness :
    (2 < (["a", "b", "c"] : List String).length →
      windowLines 2 0 0 ["a", "b", "c"] = windowLines 0 0 0 (["a", "b", "c"].drop 2))
    ∧ ((["a", "b", "c"] : List String).length ≤ 2 →
      windowLines 2 0 0 ["a", "b", "c"] = windowLines 0 0 0 ["a", "b", "c"]) :=
  c3_offset_amended ["a", "b", "c"] 2 0 0 (by decide)

/-- C4 counterexample: the empty input renders as the empty string,
not as the single newline character the claim requires. -/
theorem c4_counterexample :
    windowRender 0 0 0 "" = "" ∧ ("" : String) ≠ "\n" := by
  constructor
  · decide
  · decide

theorem endsWithNL_append_nl (s : String) : endsWithNL (s ++ "\n") = true := by
  have hd : (s ++ "\n").data = s.data ++ ['\n'] := rfl
  unfold endsWithNL
  rw [hd]
  rw [List.getLast?_concat]
  rfl

theorem windowLines_singleton_empty (offset head tail : Nat) :
    windowLines offset head tail [""] = [""] := by
  unfold windowLines applyOffset applyHeadTail
  split_ifs <;> first | rfl | omega | simp_all

/-- C4 (amended): the rendered result of the windowing stage is either
the empty string (exactly when the joined windowed lines are empty) or
the joined lines with a single newline appended, hence ending in a
newline; in particular the empty input renders as the empty string,
not as a single newline. -/
theorem c4_trailing_newline_amended (offset head tail : Nat) (s : String) :
    (windowRender offset head tail s = "" ∨
      endsWithNL (windowRender offset head tail s) = true)
    ∧ windowRender offset head tail "" = "" := by
  constructor
  · by_cases hj : joinLines (windowLines offset head tail (splitLines s)) = ""
    · left
      simp [windowRender, hj]
    · right
      simp only [windowRender, if_neg hj]
      exact endsWithNL_append_nl _
  · have hsplit : splitLines "" = [""] := rfl
    simp [windowRender, hsplit, windowLines_singleton_empty, joinLines]

/-! ## Section extraction

`extractSection` scans the corpus with a nesting-depth counter and a
capture flag; `extractStep` transcribes its loop body, `extractLoop`
the loop, `extractSection` the surrounding function.  The regular
expression engine is abstracted as a compile function yielding a line
predicate (Go's `regexp.MatchString` is unanchored search). -/

/-- A line is an opening group marker when it contains either marker
vocabulary anywhere in its content (`strings.Contains`). -/
def isStartLine (line : String) : Bool :=
  containsSub "##[group]" line || containsSub "::group::" line

/-- A line is a closing group marker when it contains either closing
marker anywhere in its content. -/
def isEndLine (line : String) : Bool :=
  containsSub "##[endgroup]" line || containsSub "::endgroup::" line

/-- Loop state of `extractSection`: capture flag, nesting depth,
captured lines so far. -/
structure ExtState where
  inSection : Bool
  sectionDepth : Int
  result : List String
deriving Repr, DecidableEq

/-- One iteration of the `extractSection` scan. -/
def extractStep (matcher : String → Bool) (st : ExtState) (line : String) : ExtState :=
  if isStartLine line then
    if !st.inSection && matcher line then
      ⟨true, st.sectionDepth + 1, st.result ++ [line]⟩
    else ⟨st.inSection, st.sectionDepth + 1, st.result⟩
  else if isEndLine line then
    if st.inSection then
      ⟨!(st.sectionDepth - 1 == 0), st.sectionDepth - 1, st.result ++ [line]⟩
    else ⟨false, if st.sectionDepth - 1 < 0 then 0 else st.sectionDepth - 1, st.result⟩
  else if st.inSection then
    ⟨st.inSection, st.sectionDepth, st.result ++ [line]⟩
  else st

/-- The whole scan of `extractSection` over the split corpus. -/
def extractLoop (matcher : String → Bool) (lines : List String) : ExtState :=
  lines.foldl (extractStep matcher) ⟨false, 0, []⟩

/-- `extractSection(logs, sectionPattern)`.  An empty pattern returns
the corpus unchanged; a pattern that fails to compile is an error; a
scan that captured nothing is a not-found error. -/
def extractSection (compile : String → Option (String → Bool))
    (logs sectionPattern : String) : Except String String :=
  if sectionPattern = "" then .ok logs
  else
    match compile sectionPattern with
    | none => .error ("invalid section pattern " ++ sectionPattern)
    | some matcher =>
      let res := (extractLoop matcher (splitLines logs)).result
      if res = [] then
        .error ("section matching pattern " ++ sectionPattern ++ " not found")
      else .ok (joinLines res)

/-- C10: marker recognition in section extraction is by substring
containment, not line prefix: any line containing an opening marker
anywhere increments the nesting depth (and begins capture, including
the line, when not already capturing and the pattern matches); any
line containing a closing but no opening marker decrements the depth
(clamped at zero outside a capture) and is included when capturing. -/
theorem c10_marker_containment (matcher : String → Bool) (st : ExtState) (line : String) :
    (isStartLine line = true →
      (extractStep matcher st line).sectionDepth = st.sectionDepth + 1
      ∧ (st.inSection = false → matcher line = true →
          (extractStep matcher st line).inSection = true
          ∧ (extractStep matcher st line).result = st.result ++ [line]))
    ∧ (isStartLine line = false → isEndLine line = true → st.inSection = true →
      (extractStep matcher st line).sectionDepth = st.sectionDepth - 1
      ∧ (extractStep matcher st line).result = st.result ++ [line])
    ∧ (isStartLine line = false → isEndLine line = true → st.inSection = false →
      (extractStep matcher st line).sectionDepth = max (st.sectionDepth - 1) 0
      ∧ (extractStep matcher st line).result = st.result) := by
  refine ⟨fun hs => ?_, fun hs he hin => ?_, fun hs he hin => ?_⟩
  · constructor
    · unfold extractStep
      rw [if_pos hs]
      by_cases hc : (!st.inSection && matcher line) = true
      · rw [if_pos hc]
      · rw [if_neg hc]
    · intro hin hm
      unfold extractStep
      rw [if_pos hs, if_pos (by rw [hin, hm]; rfl)]
      exact ⟨rfl, rfl⟩
  · unfold extractStep
    rw [if_neg (by simp [hs]), if_pos he, if_pos hin]
    exact ⟨rfl, rfl⟩
  · unfold extractStep
    rw [if_neg (by simp [hs]), if_pos he, if_neg (by simp [hin])]
    refine ⟨?_, rfl⟩
    simp only []
    split_ifs with h
    · omega
    · omega

theorem c10_witness :
    (extractStep (fun _ => true) ⟨false, 0, []⟩ "log saw ##[group]Build here").sectionDepth = 0 + 1
    ∧ (extractStep (fun _ => true) ⟨true, 1, []⟩ "log saw ::endgroup:: here").result =
        ([] : List String) ++ ["log saw ::endgroup:: here"] := by
  have h1 := c10_marker_containment (fun _ => true) ⟨false, 0, []⟩ "log saw ##[group]Build here"
  have h2 := c10_marker_containment (fun _ => true) ⟨true, 1, []⟩ "log saw ::endgroup:: here"
  exact ⟨(h1.1 (by decide)).1, (h2.2.1 (by decide) (by decide) rfl).2⟩

/-- The nested two-group corpus of the spec's round-trip property. -/
def nestedCorpus : String :=
  "##[group]Outer\nouter content\n##[group]Inner\ninner content\n##[endgroup]\nmore outer\n##[endgroup]"

/-- C2 (code evaluated at the failing input): extracting "Outer" from
the nested corpus omits the nested opening marker line
`##[group]Inner` from the captured section (the start branch of the
scan appends a line only when it begins the capture), while the nested
closing marker is kept — the claimed full inclusion of the inner
group's markers fails. -/
theorem c2_inner_open_marker_dropped :
    extractSection (fun p => some (containsSub p)) nestedCorpus "Outer" =
      .ok "##[group]Outer\nouter content\ninner content\n##[endgroup]\nmore outer\n##[endgroup]"
    ∧ containsSub "##[group]Inner"
        "##[group]Outer\nouter content\ninner content\n##[endgroup]\nmore outer\n##[endgroup]" = false := by
  constructor
  · rfl
  · decide

/-! ## Section listing (`extractSections`) -/

/-- `strings.TrimPrefix`. -/
def trimPrefixStr (pre s : String) : String :=
  if pre.data.isPrefixOf s.data then ⟨s.data.drop pre.data.length⟩ else s

/-- `strings.TrimSuffix`. -/
def trimSuffixStr (suf s : String) : String :=
  if suf.data.isSuffixOf s.data then ⟨s.data.take (s.data.length - suf.data.length)⟩ else s

/-- `strings.TrimSpace` (whitespace per `Char.isWhitespace`). -/
def trimSpace (s : String) : String :=
  ⟨((s.data.dropWhile Char.isWhitespace).reverse.dropWhile Char.isWhitespace).reverse⟩

/-- The job-header test of `extractSections`:
`strings.HasPrefix(line, "=== ") && strings.HasSuffix(line, " ===")`. -/
def isJobHeaderLine (l : String) : Bool :=
  "=== ".data.isPrefixOf l.data && " ===".data.isSuffixOf l.data

/-- The job name taken from a header line:
`strings.TrimPrefix(strings.TrimSuffix(line, " ==="), "=== ")`. -/
def jobHeaderName (l : String) : String :=
  trimPrefixStr "=== " (trimSuffixStr " ===" l)

/-- `extractSectionName(line, marker)`: the text after the first
occurrence of the marker, whitespace-trimmed; empty when the marker
does not occur. -/
def extractSectionName (line marker : String) : String :=
  match afterFirst marker.data line.data with
  | none => ""
  | some rest => trimSpace ⟨rest⟩

/-- The opening-marker name computed by the `extractSections` loop
body (`##[group]` checked before `::group::`). -/
def openMarkerName (l : String) : String :=
  if containsSub "##[group]" l then extractSectionName l "##[group]"
  else if containsSub "::group::" l then extractSectionName l "::group::"
  else ""

/-- `LogSection`: a listed section header. -/
structure LogSection where
  name : String
  line : Nat
  jobName : String
deriving Repr, DecidableEq

/-- The `extractSections` loop: tracks the current job header and the
0-based line index. -/
def extractSectionsAux (curJob : String) (i : Nat) : List String → List LogSection
  | [] => []
  | l :: rest =>
    if isJobHeaderLine l then extractSectionsAux (jobHeaderName l) (i + 1) rest
    else
      let name := openMarkerName l
      if name = "" then extractSectionsAux curJob (i + 1) rest
      else ⟨name, i + 1, curJob⟩ :: extractSectionsAux curJob (i + 1) rest

/-- `extractSections` on an already-split corpus. -/
def extractSectionsLines (lines : List String) : List LogSection :=
  extractSectionsAux "" 0 lines

/-- `extractSections(logs)`. -/
def extractSections (logs : String) : List LogSection :=
  extractSectionsLines (splitLines logs)

/-- Each list element paired with its 0-based index (starting at `n`). -/
def withIdx {α : Type} : Nat → List α → List (Nat × α)
  | _, [] => []
  | n, x :: xs => (n, x) :: withIdx (n + 1) xs

/-- The most recent job header strictly above index `k`, defaulting to
`job` when none exists. -/
def ownerFrom (job : String) (lines : List String) (k : Nat) : String :=
  match (lines.take k).reverse.find? isJobHeaderLine with
  | some h => jobHeaderName h
  | none => job

/-- Modelled from the spec's words (amended C7): one `Section` per
non-header line whose opening-marker name is nonempty after trimming,
carrying the 1-based line number and the name of the most recently
seen `=== name ===` header above it. -/
def sectionsSpec (lines : List String) : List LogSection :=
  (withIdx 0 lines).filterMap fun p =>
    if isJobHeaderLine p.2 then none
    else
      let name := openMarkerName p.2
      if name = "" then none
      else some ⟨name, p.1 + 1, ownerFrom "" lines p.1⟩

theorem find_append_cases {α : Type} (p : α → Bool) (l1 l2 : List α) :
    (l1 ++ l2).find? p = match l1.find? p with
      | some x => some x
      | none => l2.find? p := by
  induction l1 with
  | nil => simp
  | cons a l ih =>
    by_cases h : p a
    · simp [List.find?_cons_of_pos _ h]
    · simp [List.find?_cons_of_neg _ h, ih]

theorem withIdx_shift {α : Type} (ls : List α) :
    ∀ n : Nat, withIdx (n + 1) ls = (withIdx n ls).map (fun p => (p.1 + 1, p.2)) := by
  induction ls with
  | nil => intro n; rfl
  | cons x xs ih =>
    intro n
    simp only [withIdx, List.map_cons]
    exact congrArg _ (ih (n + 1))

theorem ownerFrom_cons (job l : String) (rest : List String) (k : Nat) :
    ownerFrom job (l :: rest) (k + 1) =
      ownerFrom (if isJobHeaderLine l then jobHeaderName l else job) rest k := by
  unfold ownerFrom
  have htake : (l :: rest).take (k + 1) = l :: rest.take k := rfl
  rw [htake]
  have hrev : (l :: rest.take k).reverse = (rest.take k).reverse ++ [l] := by
    simp
  rw [hrev, find_append_cases]
  rcases hfind : (rest.take k).reverse.find? isJobHeaderLine with _ | h
  · by_cases hl : isJobHeaderLine l
    · simp [List.find?_cons_of_pos _ hl, hl]
    · simp [List.find?_cons_of_neg _ hl, hl]
  · rfl

/-- The per-line emission function of the listing pass, as used by the
refinement proof below. -/
def sectionEmit (job : String) (ls : List String) (n : Nat) (p : Nat × String) : Option LogSection :=
  if isJobHeaderLine p.2 then none
  else
    let name := openMarkerName p.2
    if name = "" then none
    else some ⟨name, n + p.1 + 1, ownerFrom job ls p.1⟩

theorem extractSectionsAux_spec (ls : List String) :
    ∀ (n : Nat) (job : String),
      extractSectionsAux job n ls = (withIdx 0 ls).filterMap (sectionEmit job ls n) := by
  induction ls with
  | nil => intro n job; rfl
  | cons l rest ih =>
    intro n job
    have hw : withIdx 0 (l :: rest) = (0, l) :: (withIdx 0 rest).map (fun p => (p.1 + 1, p.2)) := by
      simp only [withIdx]
      exact congrArg _ (withIdx_shift rest 0)
    have hcomp : ∀ p : Nat × String, p ∈ withIdx 0 rest →
        sectionEmit job (l :: rest) n (p.1 + 1, p.2) =
          sectionEmit (if isJobHeaderLine l then jobHeaderName l else job) rest (n + 1) p := by
      intro p _
      unfold sectionEmit
      by_cases hp : isJobHeaderLine p.2
      · simp [hp]
      · by_cases hname : openMarkerName p.2 = ""
        · simp [hp, hname]
        · have harith : n + (p.1 + 1) + 1 = n + 1 + p.1 + 1 := by omega
          simp only [hp, hname, if_false]
          rw [harith, ownerFrom_cons]
    have htail :
        List.filterMap (sectionEmit job (l :: rest) n)
            ((withIdx 0 rest).map (fun p => (p.1 + 1, p.2))) =
          extractSectionsAux (if isJobHeaderLine l then jobHeaderName l else job) (n + 1) rest := by
      rw [List.filterMap_map, ih (n + 1) (if isJobHeaderLine l then jobHeaderName l else job)]
      exact List.filterMap_congr fun p hp => hcomp p hp
    rw [hw]
    by_cases hl : isJobHeaderLine l
    · rw [List.filterMap_cons_none (by simp [sectionEmit, hl]), htail, if_pos hl]
      simp only [extractSectionsAux, if_pos hl]
    · by_cases hname : openMarkerName l = ""
      · rw [List.filterMap_cons_none (by simp [sectionEmit, hl, hname]), htail, if_neg hl]
        simp only [extractSectionsAux, if_neg hl]
        simp [hname]
      · rw [List.filterMap_cons_some
            (show sectionEmit job (l :: rest) n (0, l) =
                some ⟨openMarkerName l, n + 1, job⟩ by
              simp [sectionEmit, hl, hname, ownerFrom]),
          htail, if_neg hl]
        simp only [extractSectionsAux, if_neg hl]
        simp [hname]

/-- C7 (amended): `extractSections` lists exactly one `Section` per
non-header line whose opening-marker name (`##[group]` before
`::group::`, text after the marker trimmed) is nonempty, carrying its
1-based line number and the most recently seen `=== name ===` header
above it as owning job; header lines, closing markers, empty-named
markers and plain lines produce none, and nested groups appear
independently in encounter order. -/
theorem c7_sections_listing (lines : List String) :
    extractSectionsLines lines = sectionsSpec lines := by
  unfold extractSectionsLines sectionsSpec
  rw [extractSectionsAux_spec lines 0 ""]
  apply List.filterMap_congr
  intro p _
  unfold sectionEmit
  by_cases hp : isJobHeaderLine p.2
  · simp [hp]
  · by_cases hname : openMarkerName p.2 = ""
    · simp [hp, hname]
    · simp [hp, hname]

/-- C7 counterexample: a line consisting of a bare opening marker with
no name bears an opening group marker, yet `extractSections` emits no
`Section` for it — the claim as stated requires one per marker-bearing
line. -/
theorem c7_counterexample :
    extractSectionsLines ["##[group]"] = [] ∧ containsSub "##[group]" "##[group]" = true := by
  constructor
  · rfl
  · decide

/-! ## Corpus parsing (`parseLogLines`) -/

/-- A corpus line with metadata, mirroring the `logLine` struct. -/
structure LogLine where
  content : String
  isHeader : Bool
  fileSection : String
deriving Repr, DecidableEq

/-- `headerPattern = ^=== .+ ===$`: the prefix `=== `, at least one
character, the suffix ` ===`, and no newline (Go's `.` does not match
a newline, and `^`/`$` anchor at text start and end). -/
def isHeaderLine (s : String) : Bool :=
  "=== ".data.isPrefixOf s.data && " ===".data.isSuffixOf s.data
    && decide (9 ≤ s.data.length) && s.data.all (fun c => c ≠ '\n')

/-- The `parseLogLines` loop, carrying the current file section. -/
def parseLinesAux (f : String → Bool) (cur : String) : List String → List LogLine
  | [] => []
  | raw :: rest =>
    let isH := f raw
    let cur2 := if isH then raw else cur
    ⟨raw, isH, cur2⟩ :: parseLinesAux f cur2 rest

/-- `parseLogLines` on an already-split corpus. -/
def parseLines (raws : List String) : List LogLine :=
  parseLinesAux isHeaderLine "" raws

/-- `parseLogLines(logStr)`. -/
def parseLogLines (logStr : String) : List LogLine :=
  parseLines (splitLines logStr)

theorem parseLinesAux_length (f : String → Bool) (raws : List String) :
    ∀ cur : String, (parseLinesAux f cur raws).length = raws.length := by
  induction raws with
  | nil => intro cur; rfl
  | cons raw rest ih =>
    intro cur
    simp only [parseLinesAux, List.length_cons, ih]

theorem parseLinesAux_section (f : String → Bool) (raws : List String) :
    ∀ (cur : String) (i : Nat) (hi : i < (parseLinesAux f cur raws).length),
      ((parseLinesAux f cur raws).get ⟨i, hi⟩).fileSection =
        (((raws.take (i + 1)).reverse.find? f).getD cur) := by
  induction raws with
  | nil => intro cur i hi; simp [parseLinesAux] at hi
  | cons raw rest ih =>
    intro cur i hi
    match i with
    | 0 =>
      by_cases hf : f raw
      · simp [parseLinesAux, List.find?_cons_of_pos _ hf, hf]
      · simp [parseLinesAux, List.find?_cons_of_neg _ hf, hf]
    | Nat.succ j =>
      have hj : j < (parseLinesAux f (if f raw then raw else cur) rest).length := by
        have := hi
        simp only [parseLinesAux, List.length_cons] at this
        omega
      have hrec := ih (if f raw then raw else cur) j hj
      have hgets : ((parseLinesAux f cur (raw :: rest)).get ⟨j + 1, hi⟩).fileSection =
          ((parseLinesAux f (if f raw then raw else cur) rest).get ⟨j, hj⟩).fileSection := by
        rfl
      rw [hgets, hrec]
      have htake : ((raw :: rest).take (j + 2)).reverse = (rest.take (j + 1)).reverse ++ [raw] := by
        simp [List.take, List.reverse_cons]
      rw [htake, find_append_cases]
      rcases hfind : (rest.take (j + 1)).reverse.find? f with _ | x
      · by_cases hf : f raw
        · simp [List.find?_cons_of_pos _ hf, hf]
        · simp [List.find?_cons_of_neg _ hf, hf]
      · rfl

/-- C9: in the corpus `parseLogLines` produces, every line's
`fileSection` equals the content of the nearest line at or above it
matching the header pattern, or the empty string when no header
precedes it. -/
theorem c9_fileSection_nearest_header (logStr : String) (i : Nat)
    (hi : i < (parseLogLines logStr).length) :
    ((parseLogLines logStr).get ⟨i, hi⟩).fileSection =
      ((((splitLines logStr).take (i + 1)).reverse.find? isHeaderLine).getD "") :=
  parseLinesAux_section isHeaderLine (splitLines logStr) "" i hi

theorem c9_witness :
    ∃ hi : 1 < (parseLogLines "=== a.txt ===\nerr").length,
      ((parseLogLines "=== a.txt ===\nerr").get ⟨1, hi⟩).fileSection =
        ((((splitLines "=== a.txt ===\nerr").take 2).reverse.find? isHeaderLine).getD "") :=
  ⟨by decide, c9_fileSection_nearest_header "=== a.txt ===\nerr" 1 (by decide)⟩

/-! ## Line filtering (`filterLogLines`)

The regex engine is abstracted as a compile function returning a line
predicate; the case-insensitive substring matcher is transcribed
(`strings.Contains(strings.ToLower(s), strings.ToLower(filter))`,
lower-casing modelled per character). -/

/-- Filtering options, mirroring `LogFilterOptions` (`ContextLines`
per the spec is a non-negative integer). -/
structure LogFilterOptions where
  Filter : String
  FilterRegex : String
  ContextLines : Nat
deriving Repr

/-- `strings.ToLower`, per character. -/
def toLowerStr (s : String) : String :=
  ⟨s.data.map Char.toLower⟩

/-- Matcher selection of `filterLogLines`: a nonempty regex pattern
wins, otherwise the case-insensitive substring matcher. -/
def selectMatcher (compile : String → Option (String → Bool))
    (opts : LogFilterOptions) : Option (String → Bool) :=
  if opts.FilterRegex ≠ "" then compile opts.FilterRegex
  else some (fun s => containsSub (toLowerStr opts.Filter) (toLowerStr s))

/-- First pass: line `i` matches when it exists, is not a header, and
the matcher accepts its content. -/
def matchedAt (matcher : String → Bool) (lines : List LogLine) (i : Nat) : Bool :=
  match lines[i]? with
  | some l => !l.isHeader && matcher l.content
  | none => false

/-- The file section of line `i` (irrelevant default out of range). -/
def sectionAt (lines : List LogLine) (i : Nat) : String :=
  match lines[i]? with
  | some l => l.fileSection
  | none => ""

/-- A context candidate is acceptable when it exists, is not a header,
and shares the match's file section. -/
def ctxOk (lines : List LogLine) (sec : String) (i : Nat) : Bool :=
  match lines[i]? with
  | some l => !l.isHeader && (l.fileSection == sec)
  | none => false

/-- `start, start+1, ..., start+cnt-1`. -/
def natRange (start cnt : Nat) : List Nat :=
  match cnt with
  | 0 => []
  | n + 1 => start :: natRange (start + 1) n

theorem mem_natRange {i : Nat} (start cnt : Nat) :
    i ∈ natRange start cnt ↔ start ≤ i ∧ i < start + cnt := by
  induction cnt generalizing start with
  | zero => simp [natRange]
  | succ n ih => simp [natRange, List.mem_cons, ih]; omega

/-- Second pass, one match: the before-window filtered to acceptable
lines (the loop has no break going backwards), the match itself, and
the after-window truncated at the first unacceptable line (the loop
breaks). -/
def expandOne (lines : List LogLine) (ctx m : Nat) : List Nat :=
  (natRange (m - ctx) (m - (m - ctx))).filter (ctxOk lines (sectionAt lines m))
    ++ m :: (natRange (m + 1) (min ctx (lines.length - (m + 1)))).takeWhile
        (ctxOk lines (sectionAt lines m))

/-- Second pass, all matches: the union of the expanded windows. -/
def includedAt (lines : List LogLine) (matcher : String → Bool) (ctx i : Nat) : Bool :=
  (natRange 0 lines.length).any fun m =>
    matchedAt matcher lines m && (expandOne lines ctx m).any (fun j => j == i)

/-- Third pass helper: search backward from `i` for the header line
whose content equals the section tag. -/
def findHeaderFor (lines : List LogLine) (i : Nat) (sec : String) : Option LogLine :=
  (lines.take (i + 1)).reverse.find? (fun l => l.isHeader && l.content == sec)

/-- Third pass: emit included lines in order, inserting the section
header whenever the emitted section changes to a nonempty tag. -/
def rebuildAux (lines : List LogLine) (included : Nat → Bool) :
    List (Nat × LogLine) → String → List LogLine
  | [], _ => []
  | q :: rest, lastSec =>
    if included q.1 then
      if q.2.fileSection ≠ lastSec ∧ q.2.fileSection ≠ "" then
        (findHeaderFor lines q.1 q.2.fileSection).toList
          ++ q.2 :: rebuildAux lines included rest q.2.fileSection
      else q.2 :: rebuildAux lines included rest lastSec
    else rebuildAux lines included rest lastSec

/-- The whole third pass over the corpus. -/
def rebuild (lines : List LogLine) (included : Nat → Bool) : List LogLine :=
  rebuildAux lines included (withIdx 0 lines) ""

/-- `filterLogLines(lines, opts)`: identity without a filter, the
distinct no-result value (`none`) when nothing matches, otherwise the
rebuilt sub-corpus. -/
def filterLogLines (compile : String → Option (String → Bool))
    (lines : List LogLine) (opts : LogFilterOptions) :
    Except String (Option (List LogLine)) :=
  if opts.Filter = "" ∧ opts.FilterRegex = "" then .ok (some lines)
  else
    match selectMatcher compile opts with
    | none => .error ("invalid regex pattern " ++ opts.FilterRegex)
    | some matcher =>
      if (natRange 0 lines.length).all (fun m => !matchedAt matcher lines m) then .ok none
      else .ok (some (rebuild lines (includedAt lines matcher opts.ContextLines)))

/-- C8 counterexample: with both the substring (`"alpha"`) and the
regex (`"beta"`) set, `filterLogLines` does not fail: it returns a
successful result, and that result is the regex's (the line "beta"
matched, the line "alpha" did not). -/
theorem c8_counterexample :
    filterLogLines (fun p => some (containsSub p)) (parseLines ["alpha", "beta"])
        ⟨"alpha", "beta", 0⟩ = .ok (some [⟨"beta", false, ""⟩]) := by
  rfl

/-- C8 (amended): when both the substring filter and the regex pattern
are set, `filterLogLines` does not fail; the regex silently takes
precedence and the substring is ignored — the result is identical to
filtering with the regex alone.  (The mutual-exclusion error of the
spec is enforced by the callers before these options are built.) -/
theorem c8_regex_precedence (compile : String → Option (String → Bool))
    (lines : List LogLine) (f r : String) (ctx : Nat)
    (hf : f ≠ "") (hr : r ≠ "") :
    filterLogLines compile lines ⟨f, r, ctx⟩ = filterLogLines compile lines ⟨"", r, ctx⟩ := by
  unfold filterLogLines selectMatcher
  simp [hf, hr]

theorem c8_regex_precedence_witness :
    filterLogLines (fun p => some (containsSub p)) (parseLines ["alpha", "beta"])
        ⟨"alpha", "beta", 0⟩ =
      filterLogLines (fun p => some (containsSub p)) (parseLines ["alpha", "beta"])
        ⟨"", "beta", 0⟩ :=
  c8_regex_precedence (fun p => some (containsSub p)) (parseLines ["alpha", "beta"])
    "alpha" "beta" 0 (by decide) (by decide)

theorem mem_withIdx_getElem {α : Type} (ls : List α) :
    ∀ (n : Nat) (q : Nat × α), q ∈ withIdx n ls → n ≤ q.1 ∧ ls[q.1 - n]? = some q.2 := by
  induction ls with
  | nil => intro n q h; simp [withIdx] at h
  | cons x xs ih =>
    intro n q h
    rcases List.mem_cons.mp h with h | h
    · subst h
      exact ⟨Nat.le_refl n, by simp⟩
    · have := ih (n + 1) q h
      refine ⟨by omega, ?_⟩
      have h1 : q.1 - n = (q.1 - (n + 1)) + 1 := by omega
      rw [h1]
      simpa using this.2

theorem getElem_mem_withIdx {α : Type} (ls : List α) :
    ∀ (n i : Nat) (hi : i < ls.length), (n + i, ls.get ⟨i, hi⟩) ∈ withIdx n ls := by
  induction ls with
  | nil => intro n i hi; simp at hi
  | cons x xs ih =>
    intro n i hi
    match i with
    | 0 => simp [withIdx]
    | Nat.succ j =>
      have hj : j < xs.length := by simpa using hi
      have := ih (n + 1) j hj
      have harith : n + (j + 1) = (n + 1) + j := by omega
      rw [harith]
      exact List.mem_cons_of_mem _ this

theorem matchedAt_lt_length {matcher : String → Bool} {lines : List LogLine} {i : Nat}
    (h : matchedAt matcher lines i = true) : i < lines.length := by
  unfold matchedAt at h
  rcases hl : lines[i]? with _ | l
  · rw [hl] at h; simp at h
  · rcases List.getElem?_eq_some_iff.mp hl with ⟨hlt, _⟩
    exact hlt

theorem matchedAt_included {matcher : String → Bool} {lines : List LogLine} {ctx i : Nat}
    (h : matchedAt matcher lines i = true) :
    includedAt lines matcher ctx i = true := by
  unfold includedAt
  rw [List.any_eq_true]
  refine ⟨i, ?_, ?_⟩
  · rw [mem_natRange]
    exact ⟨Nat.zero_le i, by simpa using matchedAt_lt_length h⟩
  · rw [Bool.and_eq_true]
    refine ⟨h, ?_⟩
    rw [List.any_eq_true]
    refine ⟨i, ?_, by simp⟩
    unfold expandOne
    exact List.mem_append_right _ (List.mem_cons_self _ _)

theorem rebuildAux_ne_nil (lines : List LogLine) (included : Nat → Bool) :
    ∀ (ps : List (Nat × LogLine)) (lastSec : String),
      (∃ q ∈ ps, included q.1 = true) →
      rebuildAux lines included ps lastSec ≠ [] := by
  intro ps
  induction ps with
  | nil => intro lastSec h; rcases h with ⟨q, hq, _⟩; simp at hq
  | cons q rest ih =>
    intro lastSec h
    by_cases hinc : included q.1 = true
    · simp only [rebuildAux, hinc, if_true]
      by_cases hsec : q.2.fileSection ≠ lastSec ∧ q.2.fileSection ≠ ""
      · rw [if_pos hsec]
        exact List.append_ne_nil_of_right_ne_nil _ (by simp)
      · rw [if_neg hsec]
        simp
    · simp only [rebuildAux, hinc, if_false]
      rcases h with ⟨p, hp, hpi⟩
      rcases List.mem_cons.mp hp with hp2 | hp2
      · rw [hp2] at hpi; exact absurd hpi hinc
      · exact ih lastSec ⟨p, hp2, hpi⟩

theorem rebuild_ne_nil {lines : List LogLine} {included : Nat → Bool} {i : Nat}
    (hi : i < lines.length) (hinc : included i = true) :
    rebuild lines included ≠ [] := by
  apply rebuildAux_ne_nil
  exact ⟨(0 + i, lines.get ⟨i, hi⟩), getElem_mem_withIdx lines 0 i hi, by simpa using hinc⟩

/-- C5: with a substring or pattern set (and the pattern compiling to
a matcher), `filterLogLines` returns the distinct no-result value —
`none` with no error — exactly when no non-header line satisfies the
predicate; as soon as one line matches, the result is present and
nonempty (Go: a non-nil slice). -/
theorem c5_no_match_sentinel (compile : String → Option (String → Bool))
    (lines : List LogLine) (opts : LogFilterOptions) (matcher : String → Bool)
    (hset : ¬(opts.Filter = "" ∧ opts.FilterRegex = ""))
    (hm : selectMatcher compile opts = some matcher) :
    ((∀ i, matchedAt matcher lines i = false) →
      filterLogLines compile lines opts = .ok none)
    ∧ (∀ i, matchedAt matcher lines i = true →
      ∃ res, filterLogLines compile lines opts = .ok (some res) ∧ res ≠ []) := by
  constructor
  · intro hall
    have hcond : ((natRange 0 lines.length).all fun m => !matchedAt matcher lines m) = true := by
      rw [List.all_eq_true]
      intro m _
      rw [hall m]
      rfl
    simp only [filterLogLines, if_neg hset, hm, hcond, if_true]
  · intro i hmi
    refine ⟨rebuild lines (includedAt lines matcher opts.ContextLines), ?_, ?_⟩
    · have hcond : ¬ (((natRange 0 lines.length).all fun m => !matchedAt matcher lines m) = true) := by
        intro hall
        rw [List.all_eq_true] at hall
        have hmem : i ∈ natRange 0 lines.length := by
          rw [mem_natRange]
          exact ⟨Nat.zero_le i, by simpa using matchedAt_lt_length hmi⟩
        have := hall i hmem
        rw [hmi] at this
        simp at this
      simp only [filterLogLines, if_neg hset, hm, if_neg hcond]
    · exact rebuild_ne_nil (matchedAt_lt_length hmi) (matchedAt_included hmi)

theorem c5_witness :
    ∃ res, filterLogLines (fun _ => none) (parseLines ["a", "hit b"]) ⟨"hit", "", 0⟩ =
      .ok (some res) ∧ res ≠ [] :=
  (c5_no_match_sentinel (fun _ => none) (parseLines ["a", "hit b"]) ⟨"hit", "", 0⟩
      (fun s => containsSub (toLowerStr "hit") (toLowerStr s))
      (by decide) rfl).2 1 (by decide)

/-! ## The boundary-respecting context property (C1)

A two-file corpus as produced by `parseLogLines`: header of file A,
body of A, header of B, body of B. -/

/-- Body lines of one file, as parsed inside section `sec`. -/
def mkBody (sec : String) (ls : List String) : List LogLine :=
  ls.map fun l => ⟨l, false, sec⟩

/-- The parsed two-file corpus. -/
def twoFileCorpus (hA hB : String) (as bs : List String) : List LogLine :=
  ⟨hA, true, hA⟩ :: (mkBody hA as ++ ⟨hB, true, hB⟩ :: mkBody hB bs)

theorem parseLinesAux_no_header (f : String → Bool) (ls : List String) :
    ∀ cur, (∀ l ∈ ls, f l = false) →
      parseLinesAux f cur ls = ls.map fun l => ⟨l, false, cur⟩ := by
  induction ls with
  | nil => intro cur _; rfl
  | cons x xs ih =>
    intro cur h
    have hx : f x = false := h x (List.mem_cons_self x xs)
    simp only [parseLinesAux, hx, List.map_cons, Bool.false_eq_true, if_false]
    rw [ih cur fun l hl => h l (List.mem_cons_of_mem x hl)]

theorem parseLinesAux_append_no_header (f : String → Bool) (xs ys : List String) :
    ∀ cur, (∀ l ∈ xs, f l = false) →
      parseLinesAux f cur (xs ++ ys) =
        (xs.map fun l => ⟨l, false, cur⟩) ++ parseLinesAux f cur ys := by
  induction xs with
  | nil => intro cur _; rfl
  | cons x xs ih =>
    intro cur h
    have hx : f x = false := h x (List.mem_cons_self x xs)
    simp only [List.cons_append, parseLinesAux, hx, List.map_cons, Bool.false_eq_true,
      if_false, List.append_eq]
    rw [ih cur fun l hl => h l (List.mem_cons_of_mem x hl)]

theorem parse_twoFile (hA hB : String) (as bs : List String)
    (hhA : isHeaderLine hA = true) (hhB : isHeaderLine hB = true)
    (haH : ∀ l ∈ as, isHeaderLine l = false) (hbH : ∀ l ∈ bs, isHeaderLine l = false) :
    parseLines (hA :: (as ++ hB :: bs)) = twoFileCorpus hA hB as bs := by
  unfold parseLines twoFileCorpus mkBody
  simp only [parseLinesAux, hhA, if_true]
  rw [parseLinesAux_append_no_header isHeaderLine as (hB :: bs) hA haH]
  simp only [parseLinesAux, hhB, if_true]
  rw [parseLinesAux_no_header isHeaderLine bs hB hbH]

theorem twoFileCorpus_length (hA hB : String) (as bs : List String) :
    (twoFileCorpus hA hB as bs).length = as.length + bs.length + 2 := by
  simp [twoFileCorpus, mkBody]
  omega

theorem twoFileCorpus_elem_mid (hA hB : String) (as bs : List String)
    (j : Nat) (hj : j < as.length) :
    (twoFileCorpus hA hB as bs)[j + 1]? = some ⟨as.get ⟨j, hj⟩, false, hA⟩ := by
  unfold twoFileCorpus mkBody
  rw [List.getElem?_cons_succ, List.getElem?_append_left (by simpa using hj),
    List.getElem?_map, List.getElem?_eq_getElem hj]
  rfl

theorem twoFileCorpus_elem (hA hB : String) (as bs : List String) (i : Nat) (l : LogLine)
    (h : (twoFileCorpus hA hB as bs)[i]? = some l) :
    (i = 0 ∧ l = ⟨hA, true, hA⟩)
    ∨ (1 ≤ i ∧ i ≤ as.length ∧ l.isHeader = false ∧ l.fileSection = hA ∧ l.content ∈ as)
    ∨ (i = as.length + 1 ∧ l = ⟨hB, true, hB⟩)
    ∨ (as.length + 2 ≤ i ∧ l.isHeader = false ∧ l.fileSection = hB ∧ l.content ∈ bs) := by
  unfold twoFileCorpus mkBody at h
  match i with
  | 0 =>
    left
    rw [List.getElem?_cons_zero] at h
    exact ⟨rfl, (Option.some_inj.mp h).symm⟩
  | Nat.succ j =>
    rw [List.getElem?_cons_succ] at h
    by_cases hj : j < as.length
    · rw [List.getElem?_append_left (by simpa using hj), List.getElem?_map,
        List.getElem?_eq_getElem hj] at h
      right; left
      have hl : l = ⟨as[j], false, hA⟩ := (Option.some_inj.mp h).symm
      subst hl
      exact ⟨by omega, by omega, rfl, rfl, List.getElem_mem hj⟩
    · rw [List.getElem?_append_right (by simpa using Nat.le_of_not_lt hj)] at h
      have hlen : (List.map (fun l => (⟨l, false, hA⟩ : LogLine)) as).length = as.length := by
        simp
      rw [hlen] at h
      rcases hk : j - as.length with _ | k
      · rw [hk, List.getElem?_cons_zero] at h
        right; right; left
        exact ⟨by omega, (Option.some_inj.mp h).symm⟩
      · rw [hk, List.getElem?_cons_succ, List.getElem?_map] at h
        rcases hb : bs[k]? with _ | b
        · rw [hb] at h; simp at h
        · rw [hb] at h
          right; right; right
          have hl : l = ⟨b, false, hB⟩ := by
            have h2 : some (⟨b, false, hB⟩ : LogLine) = some l := h
            exact (Option.some_inj.mp h2).symm
          subst hl
          exact ⟨by omega, rfl, rfl, List.getElem?_mem hb⟩

theorem matched_zone {matcher : String → Bool} {hA hB : String} {as bs : List String}
    (hbm : ∀ l ∈ bs, matcher l = false) {m : Nat}
    (h : matchedAt matcher (twoFileCorpus hA hB as bs) m = true) :
    1 ≤ m ∧ m ≤ as.length := by
  unfold matchedAt at h
  rcases hl : (twoFileCorpus hA hB as bs)[m]? with _ | l
  · rw [hl] at h; simp at h
  · rw [hl] at h
    rw [Bool.and_eq_true] at h
    rcases twoFileCorpus_elem hA hB as bs m l hl with z | z | z | z
    · rw [z.2] at h; simp at h
    · exact ⟨z.1, z.2.1⟩
    · rw [z.2] at h; simp at h
    · rw [hbm l.content z.2.2.2] at h
      simp at h

theorem ctxOk_zone {hA hB : String} {as bs : List String} (hne : hA ≠ hB) {i : Nat}
    (h : ctxOk (twoFileCorpus hA hB as bs) hA i = true) :
    1 ≤ i ∧ i ≤ as.length := by
  unfold ctxOk at h
  rcases hl : (twoFileCorpus hA hB as bs)[i]? with _ | l
  · rw [hl] at h; simp at h
  · rw [hl] at h
    rw [Bool.and_eq_true] at h
    rcases twoFileCorpus_elem hA hB as bs i l hl with z | z | z | z
    · rw [z.2] at h; simp at h
    · exact ⟨z.1, z.2.1⟩
    · rw [z.2] at h; simp at h
    · have : l.fileSection = hA := by
        have := h.2
        rw [z.2.2.1] at this
        exact absurd (beq_iff_eq.mp this) hne.symm
      rw [z.2.2.1] at this
      exact absurd this hne.symm

theorem sectionAt_mid {hA hB : String} {as bs : List String} {m : Nat}
    (h1 : 1 ≤ m) (h2 : m ≤ as.length) :
    sectionAt (twoFileCorpus hA hB as bs) m = hA := by
  obtain ⟨j, rfl⟩ : ∃ j, m = j + 1 := ⟨m - 1, by omega⟩
  unfold sectionAt
  rw [twoFileCorpus_elem_mid hA hB as bs j (by omega)]

theorem included_zone {matcher : String → Bool} {hA hB : String} {as bs : List String}
    (hne : hA ≠ hB) (hbm : ∀ l ∈ bs, matcher l = false) {ctx i : Nat}
    (h : includedAt (twoFileCorpus hA hB as bs) matcher ctx i = true) :
    1 ≤ i ∧ i ≤ as.length := by
  unfold includedAt at h
  rw [List.any_eq_true] at h
  obtain ⟨m, _, hconj⟩ := h
  rw [Bool.and_eq_true] at hconj
  obtain ⟨hmatch, hany⟩ := hconj
  have hz := matched_zone hbm hmatch
  rw [List.any_eq_true] at hany
  obtain ⟨j, hjmem, hbeq⟩ := hany
  have hji : j = i := by simpa using hbeq
  subst hji
  unfold expandOne at hjmem
  rw [sectionAt_mid hz.1 hz.2] at hjmem
  rcases List.mem_append.mp hjmem with hbef | hrest
  · exact ctxOk_zone hne (List.mem_filter.mp hbef).2
  · rcases List.mem_cons.mp hrest with heq | haft
    · rw [heq]; exact hz
    · exact ctxOk_zone hne (List.mem_takeWhile_imp haft)

theorem findHeaderFor_twoFile (hA hB : String) (as bs : List String) {i : Nat}
    (hi : i ≤ as.length) :
    findHeaderFor (twoFileCorpus hA hB as bs) i hA = some ⟨hA, true, hA⟩ := by
  unfold findHeaderFor twoFileCorpus mkBody
  have htake : ((⟨hA, true, hA⟩ : LogLine) ::
        (as.map (fun l => (⟨l, false, hA⟩ : LogLine)) ++
          ⟨hB, true, hB⟩ :: bs.map (fun l => (⟨l, false, hB⟩ : LogLine)))).take (i + 1)
      = ⟨hA, true, hA⟩ :: (as.map (fun l => (⟨l, false, hA⟩ : LogLine))).take i := by
    rw [List.take_cons (by omega)]
    congr 1
    rw [List.take_append_eq_append_take]
    simp only [Nat.add_sub_cancel]
    have hz : i - (as.map (fun l => (⟨l, false, hA⟩ : LogLine))).length = 0 := by
      simp
      omega
    rw [hz]
    simp
  rw [htake, List.reverse_cons, find_append_cases]
  have hnone : ((as.map (fun l => (⟨l, false, hA⟩ : LogLine))).take i).reverse.find?
      (fun l => l.isHeader && l.content == hA) = none := by
    rw [List.find?_eq_none]
    intro x hx
    have hx2 : x ∈ as.map (fun l => (⟨l, false, hA⟩ : LogLine)) :=
      List.mem_of_mem_take (List.mem_reverse.mp hx)
    obtain ⟨a, _, rfl⟩ := List.mem_map.mp hx2
    simp
  rw [hnone]
  rw [List.find?_cons_of_pos _ (by simp)]

theorem filter_cons_pos_helper {α : Type} (p : α → Bool) (a : α) (l : List α)
    (h : p a = true) : (a :: l).filter p = a :: l.filter p :=
  List.filter_cons_of_pos h

theorem filter_cons_neg_helper {α : Type} (p : α → Bool) (a : α) (l : List α)
    (h : p a = false) : (a :: l).filter p = l.filter p :=
  List.filter_cons_of_neg (by simp [h])

theorem rebuildAux_stable (L : List LogLine) (P : Nat → Bool) (sec : String) (hdr : LogLine) :
    ∀ ps : List (Nat × LogLine),
      (∀ q ∈ ps, P q.1 = true → q.2.fileSection = sec ∧ q.2.isHeader = false ∧
        findHeaderFor L q.1 sec = some hdr) →
      rebuildAux L P ps sec = (ps.filter fun q => P q.1).map fun q => q.2 := by
  intro ps
  induction ps with
  | nil => intro _; rfl
  | cons q rest ih =>
    intro hcond
    have hrest := fun p hp => hcond p (List.mem_cons_of_mem q hp)
    by_cases hq : P q.1 = true
    · have hf := hcond q (List.mem_cons_self q rest) hq
      simp only [rebuildAux]
      rw [if_pos hq, if_neg (by intro hc; exact hc.1 hf.1),
        filter_cons_pos_helper (fun q => P q.1) q rest hq, List.map_cons, ih hrest]
    · simp only [rebuildAux]
      rw [if_neg hq, filter_cons_neg_helper (fun q => P q.1) q rest (by simpa using hq),
        ih hrest]

theorem rebuildAux_first (L : List LogLine) (P : Nat → Bool) (sec : String) (hdr : LogLine)
    (hsec : sec ≠ "") :
    ∀ ps : List (Nat × LogLine),
      (∀ q ∈ ps, P q.1 = true → q.2.fileSection = sec ∧ q.2.isHeader = false ∧
        findHeaderFor L q.1 sec = some hdr) →
      rebuildAux L P ps "" =
        if (ps.filter fun q => P q.1) = [] then []
        else hdr :: ((ps.filter fun q => P q.1).map fun q => q.2) := by
  intro ps
  induction ps with
  | nil => intro _; simp [rebuildAux]
  | cons q rest ih =>
    intro hcond
    have hrest := fun p hp => hcond p (List.mem_cons_of_mem q hp)
    by_cases hq : P q.1 = true
    · have hf := hcond q (List.mem_cons_self q rest) hq
      simp only [rebuildAux]
      rw [if_pos hq, if_pos (by rw [hf.1]; exact ⟨hsec, hsec⟩)]
      rw [hf.1, hf.2.2, rebuildAux_stable L P sec hdr rest hrest,
        filter_cons_pos_helper (fun q => P q.1) q rest hq, List.map_cons]
      simp [Option.toList]
    · simp only [rebuildAux]
      rw [if_neg hq, filter_cons_neg_helper (fun q => P q.1) q rest (by simpa using hq),
        ih hrest]

/-- When some line matches, `filterLogLines` takes the positive path:
the rebuilt sub-corpus of the included lines. -/
theorem filterLogLines_pos (compile : String → Option (String → Bool))
    (lines : List LogLine) (opts : LogFilterOptions) (matcher : String → Bool)
    (hset : ¬(opts.Filter = "" ∧ opts.FilterRegex = ""))
    (hm : selectMatcher compile opts = some matcher)
    {i : Nat} (hmi : matchedAt matcher lines i = true) :
    filterLogLines compile lines opts =
      .ok (some (rebuild lines (includedAt lines matcher opts.ContextLines))) := by
  have hcond : ¬ (((natRange 0 lines.length).all fun m => !matchedAt matcher lines m) = true) := by
    intro hall
    rw [List.all_eq_true] at hall
    have hmem : i ∈ natRange 0 lines.length := by
      rw [mem_natRange]
      exact ⟨Nat.zero_le i, by simpa using matchedAt_lt_length hmi⟩
    have := hall i hmem
    rw [hmi] at this
    simp at this
  simp only [filterLogLines, if_neg hset, hm, if_neg hcond]

/-- C1: in a two-file corpus (header `hA`, body `as`, header `hB`,
body `bs`) where the matcher accepts the last line of file A and no
line of file B, filtering with `contextLines = 5` yields a present
result that contains only lines of file A's section, and contains
exactly one header line — file A's.  After-context expansion stops at
file B's header; before-context only admits same-section non-header
lines; the rebuild pass inserts file A's header exactly once. -/
theorem c1_boundary_context (matcher : String → Bool) (hA hB : String) (as bs : List String)
    (hhA : isHeaderLine hA = true) (hhB : isHeaderLine hB = true) (hne : hA ≠ hB)
    (haH : ∀ l ∈ as, isHeaderLine l = false) (hbH : ∀ l ∈ bs, isHeaderLine l = false)
    (hane : as ≠ []) (hmatch : matcher (as.getLast hane) = true)
    (hbm : ∀ l ∈ bs, matcher l = false) :
    ∃ res,
      filterLogLines (fun _ => some matcher) (parseLines (hA :: (as ++ hB :: bs)))
          ⟨"", "p", 5⟩ = .ok (some res)
      ∧ (∀ l ∈ res, l.fileSection = hA)
      ∧ ((res.filter fun l => l.isHeader).map fun l => l.content) = [hA] := by
  rw [parse_twoFile hA hB as bs hhA hhB haH hbH]
  have hA1 : 1 ≤ as.length := by
    cases as with
    | nil => exact absurd rfl hane
    | cons a t => simp
  have hALt : as.length < (twoFileCorpus hA hB as bs).length := by
    rw [twoFileCorpus_length]; omega
  have hmA : matchedAt matcher (twoFileCorpus hA hB as bs) as.length = true := by
    obtain ⟨j, hj⟩ : ∃ j, as.length = j + 1 := ⟨as.length - 1, by omega⟩
    have hjlt : j < as.length := by omega
    have hlast : as.get ⟨j, hjlt⟩ = as.getLast hane := by
      rw [List.getLast_eq_get]
      have hj2 : j = as.length - 1 := by omega
      subst hj2
      rfl
    unfold matchedAt
    rw [hj, twoFileCorpus_elem_mid hA hB as bs j hjlt]
    have hgoal : matcher (as.get ⟨j, hjlt⟩) = true := by rw [hlast]; exact hmatch
    simpa using hgoal
  have hAne : hA ≠ "" := by
    intro he
    rw [he] at hhA
    exact absurd hhA (by decide)
  have hcond : ∀ q ∈ withIdx 0 (twoFileCorpus hA hB as bs),
      includedAt (twoFileCorpus hA hB as bs) matcher 5 q.1 = true →
      q.2.fileSection = hA ∧ q.2.isHeader = false ∧
        findHeaderFor (twoFileCorpus hA hB as bs) q.1 hA = some ⟨hA, true, hA⟩ := by
    intro q hq hPq
    have hget := (mem_withIdx_getElem (twoFileCorpus hA hB as bs) 0 q hq).2
    rw [Nat.sub_zero] at hget
    have hz := included_zone hne hbm hPq
    rcases twoFileCorpus_elem hA hB as bs q.1 q.2 hget with z | z | z | z
    · exact absurd z.1 (by omega)
    · exact ⟨z.2.2.2.1, z.2.2.1, findHeaderFor_twoFile hA hB as bs hz.2⟩
    · exact absurd z.1 (by omega)
    · exact absurd z.1 (by omega)
  have hfilter := filterLogLines_pos (fun _ => some matcher) (twoFileCorpus hA hB as bs)
    ⟨"", "p", 5⟩ matcher (by simp) rfl hmA
  have hrebuild : rebuild (twoFileCorpus hA hB as bs)
        (includedAt (twoFileCorpus hA hB as bs) matcher 5) =
      ⟨hA, true, hA⟩ ::
        (((withIdx 0 (twoFileCorpus hA hB as bs)).filter
            fun q => includedAt (twoFileCorpus hA hB as bs) matcher 5 q.1).map fun q => q.2) := by
    unfold rebuild
    rw [rebuildAux_first (twoFileCorpus hA hB as bs)
      (includedAt (twoFileCorpus hA hB as bs) matcher 5) hA ⟨hA, true, hA⟩ hAne
      (withIdx 0 (twoFileCorpus hA hB as bs)) hcond]
    rw [if_neg ?_]
    intro hnil
    have hmem : ((0 + as.length : Nat), (twoFileCorpus hA hB as bs).get ⟨as.length, hALt⟩) ∈
        withIdx 0 (twoFileCorpus hA hB as bs) :=
      getElem_mem_withIdx (twoFileCorpus hA hB as bs) 0 as.length hALt
    have hPA : includedAt (twoFileCorpus hA hB as bs) matcher 5 (0 + as.length) = true := by
      rw [Nat.zero_add]
      exact matchedAt_included hmA
    have hin : ((0 + as.length : Nat), (twoFileCorpus hA hB as bs).get ⟨as.length, hALt⟩) ∈
        (withIdx 0 (twoFileCorpus hA hB as bs)).filter
          fun q => includedAt (twoFileCorpus hA hB as bs) matcher 5 q.1 :=
      List.mem_filter.mpr ⟨hmem, hPA⟩
    rw [hnil] at hin
    simp at hin
  refine ⟨rebuild (twoFileCorpus hA hB as bs)
      (includedAt (twoFileCorpus hA hB as bs) matcher 5), hfilter, ?_, ?_⟩
  · intro l hl
    rw [hrebuild] at hl
    rcases List.mem_cons.mp hl with rfl | hl2
    · rfl
    · obtain ⟨q, hqf, rfl⟩ := List.mem_map.mp hl2
      have hq := List.mem_filter.mp hqf
      exact (hcond q hq.1 hq.2).1
  · rw [hrebuild]
    rw [filter_cons_pos_helper (fun l : LogLine => l.isHeader) ⟨hA, true, hA⟩ _ rfl]
    have hnil : ((((withIdx 0 (twoFileCorpus hA hB as bs)).filter
          fun q => includedAt (twoFileCorpus hA hB as bs) matcher 5 q.1).map
            fun q => q.2).filter fun l => l.isHeader) = [] := by
      rw [List.filter_eq_nil_iff]
      intro a ha
      obtain ⟨q, hqf, rfl⟩ := List.mem_map.mp ha
      have hq := List.mem_filter.mp hqf
      rw [(hcond q hq.1 hq.2).2.1]
      simp
    rw [hnil]
    rfl

theorem c1_witness :
    ∃ res,
      filterLogLines (fun _ => some (containsSub "ERR"))
          (parseLines ("=== a.txt ===" :: (["x", "v ERR w"] ++ "=== b.txt ===" :: ["y"])))
          ⟨"", "p", 5⟩ = .ok (some res)
      ∧ (∀ l ∈ res, l.fileSection = "=== a.txt ===")
      ∧ ((res.filter fun l => l.isHeader).map fun l => l.content) = ["=== a.txt ==="] :=
  c1_boundary_context (containsSub "ERR") "=== a.txt ===" "=== b.txt ==="
    ["x", "v ERR w"] ["y"] (by decide) (by decide) (by decide)
    (by decide) (by decide) (by decide) (by decide) (by decide)

end GHActions
